import Mathlib

/-!
Shallow embedding of the training/evaluation control flow of
`src/ads_p/recbole/trainer/trainer.py` (class `Trainer` and its variants),
together with proofs of the specification claims about it.

Conventions: Python floats are modelled by `ℚ`; the value `-np.inf` used to
mask scores is modelled by a dedicated constructor of `SVal`; tensors are
modelled by lists; in-place tensor mutation becomes explicit state passing.
-/

/-- Modelled from the spec: the function `early_stopping` is imported from
`recbole.utils`, whose source is not included under `src/`.  Spec §4.2:
`improved = (bigger ? new > best : new < best)`; on improvement
`best = new, steps = 0`, else `steps += 1`; `should_stop = steps >= patience`.
Returns `(best, cur_step, stop_flag, update_flag)` as used at
trainer.py:362-368. -/
def early_stopping (value best : ℚ) (curStep maxStep : ℕ) (bigger : Bool) :
    ℚ × ℕ × Bool × Bool :=
  let improved : Bool := if bigger then decide (best < value) else decide (value < best)
  let best' := if improved then value else best
  let step' := if improved then 0 else curStep + 1
  (best', step', decide (maxStep ≤ step'), improved)

/-- Observable record of one iteration of the epoch loop in `Trainer.fit`
(trainer.py:337-397): which epoch was trained, whether the validation branch
ran, whether a checkpoint was written, the early-stopping state after the
iteration, and whether the loop then broke. -/
structure EpochResult where
  epoch : ℕ
  evaluated : Bool
  checkpointed : Bool
  best : ℚ
  curStep : ℕ
  stopped : Bool
deriving DecidableEq, Repr

/-- The epoch loop of `Trainer.fit` (trainer.py:337-397), as a trace of
`EpochResult`s.  `fuel` is the number of remaining epochs
(`epochs - epoch_idx`), `epoch` the current `epoch_idx`.  Each iteration
trains one epoch; then:
* if `eval_step <= 0 or not valid_data` (line 349): checkpoint when `saved`
  and continue;
* else if `(epoch_idx + 1) % eval_step == 0` (line 356): run validation,
  feed the score through `early_stopping`, checkpoint when the score improved
  and `saved`, and break when `stop_flag` holds;
* otherwise: plain continue.
`score epoch` is the validation score `_valid_epoch` would return at that
epoch. -/
def fitAux (evalStep stoppingStep : ℕ) (bigger saved hasValid : Bool)
    (score : ℕ → ℚ) : ℕ → ℕ → ℚ → ℕ → List EpochResult
  | 0, _, _, _ => []
  | fuel + 1, epoch, best, curStep =>
    if evalStep = 0 ∨ hasValid = false then
      { epoch := epoch, evaluated := false, checkpointed := saved,
        best := best, curStep := curStep, stopped := false } ::
        fitAux evalStep stoppingStep bigger saved hasValid score fuel (epoch + 1) best curStep
    else if (epoch + 1) % evalStep = 0 then
      let r := early_stopping (score epoch) best curStep stoppingStep bigger
      { epoch := epoch, evaluated := true, checkpointed := saved && r.2.2.2,
        best := r.1, curStep := r.2.1, stopped := r.2.2.1 } ::
        (if r.2.2.1 then []
         else fitAux evalStep stoppingStep bigger saved hasValid score fuel (epoch + 1) r.1 r.2.1)
    else
      { epoch := epoch, evaluated := false, checkpointed := false,
        best := best, curStep := curStep, stopped := false } ::
        fitAux evalStep stoppingStep bigger saved hasValid score fuel (epoch + 1) best curStep

/-- Fields of the trainer state set in `Trainer.__init__` (trainer.py:71-102)
that drive the `fit` loop. -/
structure TrainerInit where
  epochs : ℕ
  evalStep : ℕ
  startEpoch : ℕ
  curStep : ℕ
  bestValidScore : ℚ
deriving DecidableEq, Repr

/-- `Trainer.__init__` (trainer.py:77-93): `self.epochs = config['epochs']`,
`self.eval_step = min(config['eval_step'], self.epochs)`, `self.start_epoch = 0`,
`self.cur_step = 0`, `self.best_valid_score = -1`. -/
def trainerInit (cfgEpochs cfgEvalStep : ℕ) : TrainerInit :=
  { epochs := cfgEpochs, evalStep := min cfgEvalStep cfgEpochs,
    startEpoch := 0, curStep := 0, bestValidScore := -1 }

/-- The attribute state the body of `TraditionalTrainer.__init__`
(trainer.py:882-884) would produce — run `Trainer.__init__`, then override
`self.epochs = 1` — if its `super().__init__` call supplied the required
`item_popularity` argument.  As written the call raises `TypeError` before
`self.epochs = 1` runs: see `traditionalTrainerConstruct`. -/
def traditionalTrainerInit (cfgEpochs cfgEvalStep : ℕ) : TrainerInit :=
  { trainerInit cfgEpochs cfgEvalStep with epochs := 1 }

/-- The positional parameters `Trainer.__init__` requires after `self`:
`config, model, item_popularity` (trainer.py:71). -/
def trainerInitParams : ℕ := 3

/-- The positional arguments `TraditionalTrainer.__init__` passes to
`super().__init__`: `config, model` (trainer.py:883). -/
def traditionalSuperArgs : ℕ := 2

/-- Constructing `TraditionalTrainer(config, model)` (trainer.py:882-884):
Python matches the super call's arguments against `Trainer.__init__`'s
required parameters and raises `TypeError` on a mismatch, before the body's
`self.epochs = 1` executes; only on a match would construction produce the
base trainer state with `epochs` overridden to 1. -/
def traditionalTrainerConstruct (cfgEpochs cfgEvalStep : ℕ) :
    Except String TrainerInit :=
  if traditionalSuperArgs = trainerInitParams then
    .ok (traditionalTrainerInit cfgEpochs cfgEvalStep)
  else
    .error "TypeError: __init__() missing 1 required positional argument: item_popularity"

/-- The trace of `Trainer.fit` for a trainer in state `init`:
`for epoch_idx in range(self.start_epoch, self.epochs)` (trainer.py:337). -/
def fitTrace (init : TrainerInit) (stoppingStep : ℕ) (bigger saved hasValid : Bool)
    (score : ℕ → ℚ) : List EpochResult :=
  fitAux init.evalStep stoppingStep bigger saved hasValid score
    (init.epochs - init.startEpoch) init.startEpoch init.bestValidScore init.curStep

/-- Python's `str.lower()` (used as `self.learner.lower()` at
trainer.py:110-118 and on model names at trainer.py:223), modelled on the
string's character list; `Char.toLower` agrees with Python on the ASCII
names involved. -/
def strLower (s : String) : String :=
  ⟨s.data.map Char.toLower⟩

/-- The optimizers `_build_optimizer` (trainer.py:104-125) can construct,
with the constructor arguments it passes. -/
inductive Optimizer
  | adam (lr wd : ℚ)
  | sgd (lr wd : ℚ)
  | adagrad (lr wd : ℚ)
  | rmsprop (lr wd : ℚ)
  | sparseAdam (lr : ℚ)
deriving DecidableEq, Repr

/-- `Trainer._build_optimizer` (trainer.py:104-125): dispatch on
`self.learner.lower()`; the recognized names pass `lr` and `weight_decay`
(`sparse_adam` passes no weight decay and warns when it is positive); any
other name logs a warning and builds `optim.Adam(params, lr=lr)` with the
default (zero) weight decay.  The second component records whether a warning
was logged. -/
def build_optimizer (learner : String) (lr wd : ℚ) : Optimizer × Bool :=
  if strLower learner = "adam" then (.adam lr wd, false)
  else if strLower learner = "sgd" then (.sgd lr wd, false)
  else if strLower learner = "adagrad" then (.adagrad lr wd, false)
  else if strLower learner = "rmsprop" then (.rmsprop lr wd, false)
  else if strLower learner = "sparse_adam" then (.sparseAdam lr, decide (0 < wd))
  else (.adam lr 0, true)

/-- A Python float loss value: either a finite value or NaN. -/
inductive LossVal
  | nan
  | val (q : ℚ)
deriving DecidableEq, Repr

/-- Float addition restricted to these values: NaN is absorbing. -/
def LossVal.add : LossVal → LossVal → LossVal
  | .nan, _ => .nan
  | _, .nan => .nan
  | .val a, .val b => .val (a + b)

/-- `loss = sum(losses)` over the tuple returned by the loss function
(trainer.py:162); Python `sum` starts from `0`.  For a single-component
loss the list is a singleton and the sum is that component. -/
def combineLosses (ls : List LossVal) : LossVal :=
  ls.foldl LossVal.add (.val 0)

/-- `Trainer._check_nan` (trainer.py:235-237): raise
`ValueError('Training loss is nan')` when the loss is NaN. -/
def check_nan (loss : LossVal) : Except String Unit :=
  match loss with
  | .nan => .error "Training loss is nan"
  | .val _ => .ok ()

/-- The batch loop of `Trainer._train_epoch` (trainer.py:153-175) over
batches `bs`, with parameter-plus-optimizer state `p : σ`.  Per batch:
`optimizer.zero_grad()`; compute `losses = loss_func(interaction)`;
accumulate `total_loss`; `_check_nan(loss)` — on NaN the `ValueError`
propagates, so neither `loss.backward()` nor `optimizer.step()` runs for
that batch; otherwise backward/clip/step, modelled by `step p b`.  The
error value carries the in-place parameter state at the moment the
exception propagates. -/
def trainEpochLoop {α σ : Type} (lossf : α → List LossVal) (step : σ → α → σ) :
    List α → σ → Option (List LossVal) → Except (String × σ) (σ × Option (List LossVal))
  | [], p, tot => .ok (p, tot)
  | b :: bs, p, tot =>
    let losses := lossf b
    let loss := combineLosses losses
    let tot' := match tot with
      | none => some losses
      | some acc => some (List.zipWith LossVal.add acc losses)
    match check_nan loss with
    | .error e => .error (e, p)
    | .ok _ => trainEpochLoop lossf step bs (step p b) tot'

/-- `Trainer._train_epoch` starts with `total_loss = None` (trainer.py:145). -/
def train_epoch {α σ : Type} (lossf : α → List LossVal) (step : σ → α → σ)
    (batches : List α) (p : σ) : Except (String × σ) (σ × Option (List LossVal)) :=
  trainEpochLoop lossf step batches p none

/-- Trainer state fields touched by `_save_checkpoint`/`resume_checkpoint`
(trainer.py:192-233).  `M` and `O` stand for the (opaque, serialized
bit-for-bit) `model.state_dict()` and `optimizer.state_dict()` payloads. -/
structure TrainerCkptState (M O : Type) where
  configModel : String
  startEpoch : ℤ
  curStep : ℕ
  bestValidScore : ℚ
  modelState : M
  optimizerState : O

/-- The dictionary written by `Trainer._save_checkpoint` (trainer.py:199-207):
`{config, epoch, cur_step, best_valid_score, state_dict, optimizer}`. -/
structure Checkpoint (M O : Type) where
  configModel : String
  epoch : ℤ
  curStep : ℕ
  bestValidScore : ℚ
  stateDict : M
  optimizer : O

/-- `Trainer._save_checkpoint(epoch)` (trainer.py:192-207). -/
def save_checkpoint {M O : Type} (t : TrainerCkptState M O) (epoch : ℤ) :
    Checkpoint M O :=
  { configModel := t.configModel, epoch := epoch, curStep := t.curStep,
    bestValidScore := t.bestValidScore, stateDict := t.modelState,
    optimizer := t.optimizerState }

/-- `Trainer.resume_checkpoint` (trainer.py:209-233):
`start_epoch = checkpoint['epoch'] + 1`, restore `cur_step` and
`best_valid_score`, warn (without failing) when the checkpoint's model name
differs from the current one, then `load_state_dict` for both the model and
the optimizer.  Returns the updated trainer state and whether the warning
was logged. -/
def resume_checkpoint {M O : Type} (t : TrainerCkptState M O)
    (ck : Checkpoint M O) : TrainerCkptState M O × Bool :=
  ({ t with startEpoch := ck.epoch + 1, curStep := ck.curStep,
            bestValidScore := ck.bestValidScore, modelState := ck.stateDict,
            optimizerState := ck.optimizer },
   decide (strLower ck.configModel ≠ strLower t.configModel))

/-- A score entry of the full-ranking score matrix: a Python float that is
either `-np.inf` (written by the masking step, trainer.py:422-424) or a
finite value. -/
inductive SVal
  | ninf
  | val (q : ℚ)
deriving DecidableEq, Repr

/-- The float order on these values: `-inf` is below everything. -/
def SVal.le : SVal → SVal → Bool
  | .ninf, _ => true
  | .val _, .ninf => false
  | .val a, .val b => decide (a ≤ b)

/-- A score matrix `scores` (shape `users × items`), as a list of rows. -/
def ScoreMat := List (List SVal)

/-- Read `scores[r][c]` (out-of-range reads default to `-inf`; the theorems
always carry in-range hypotheses, matching tensors of fixed shape). -/
def getEntry (sc : List (List SVal)) (r c : ℕ) : SVal :=
  (sc.getD r []).getD c .ninf

/-- Write `scores[r][c] = v` in place. -/
def setEntry (sc : List (List SVal)) (r c : ℕ) (v : SVal) : List (List SVal) :=
  sc.set r ((sc.getD r []).set c v)

/-- Perform a list of element writes in order (the semantics of a PyTorch
advanced-indexing assignment once the right-hand side has been read: for
repeated target positions the last write wins). -/
def writeAll (sc : List (List SVal)) (ws : List ((ℕ × ℕ) × SVal)) :
    List (List SVal) :=
  ws.foldl (fun s w => setEntry s w.1.1 w.1.2 w.2) sc

/-- One `(row, before-column, after-column)` swap triple: one aligned entry
of the index tensors `swap_row`, `swap_col_after`, `swap_col_before`
passed to `_full_sort_batch_eval` (trainer.py:401). -/
structure Swap where
  row : ℕ
  colAfter : ℕ
  colBefore : ℕ
deriving DecidableEq, Repr

/-- One swap statement
`scores[swap_row, swap_col_after] = tmp_scores[swap_row, swap_col_before]`
(trainer.py:436 and 437): the right-hand side gathers
`tmp_scores[row, colBefore]` into a fresh tensor first, then the writes
land at `(row, colAfter)`. -/
def applySwapSet (sc : List (List SVal)) (swaps : List Swap) :
    List (List SVal) :=
  writeAll sc (swaps.map (fun w => ((w.row, w.colAfter), getEntry sc w.row w.colBefore)))

/-- The two swap statements of `_full_sort_batch_eval` (trainer.py:434-437).
`tmp_scores = scores` (line 434) binds a second name to the same tensor, so
the second statement's right-hand side reads the scores already modified by
the first statement. -/
def fullSortSwaps (sc : List (List SVal)) (set1 set2 : List Swap) :
    List (List SVal) :=
  applySwapSet (applySwapSet sc set1) set2

/-- `scores[:, 0] = -np.inf` (trainer.py:422): sentinel item column. -/
def maskSentinel (sc : List (List SVal)) : List (List SVal) :=
  sc.map (fun row => row.set 0 .ninf)

/-- `scores[history_index] = -np.inf` (trainer.py:423-424), `history_index`
being the aligned `(row, column)` pairs of the user-history index; skipped
when the index is `None`. -/
def maskHistory (sc : List (List SVal)) (hist : Option (List (ℕ × ℕ))) :
    List (List SVal) :=
  match hist with
  | none => sc
  | some ps => writeAll sc (ps.map (fun p => (p, SVal.ninf)))

/-- The masking step of `_full_sort_batch_eval` (trainer.py:422-424):
sentinel column first, then the history positions. -/
def maskScores (sc : List (List SVal)) (hist : Option (List (ℕ × ℕ))) :
    List (List SVal) :=
  maskHistory (maskSentinel sc) hist

/-- `Trainer.get_threshes` (trainer.py:684-692): sort the item-popularity
table, set `t = len(item_p) / n_class`, and for `i in range(1, n_class)`
append `item_p[int(i * t)]`.  Popularity values are occurrence counts,
modelled as `ℤ`; Python's float expression `int(i * (len / n_class))` is
modelled by the exact floor `(i * len) / n_class`. -/
def get_threshes (item_popularity : List ℤ) (n_class : ℕ) : List ℤ :=
  (List.range' 1 (n_class - 1)).map (fun i =>
    (item_popularity.insertionSort (· ≤ ·)).getD
      ((i * item_popularity.length) / n_class) 0)

/-- `min_pop = threshes[n - 1] if n > 0 else 0` (trainer.py:663). -/
def bucketMin (threshes : List ℤ) (n : ℕ) : ℤ :=
  if 0 < n then threshes.getD (n - 1) 0 else 0

/-- `max_pop = threshes[n] if n < len(rec_num_list) - 1 else 100000`
(trainer.py:664). -/
def bucketMax (threshes : List ℤ) (nClass n : ℕ) : ℤ :=
  if n < nClass - 1 then threshes.getD n 0 else 100000

/-- The bucket-assignment loop of `Trainer.evaluate_pop`
(trainer.py:662-671): scan buckets `n = 0, 1, …, n_class - 1` and `break`
at the first one with `i_pop > min_pop and i_pop <= max_pop`; when no
bucket matches, the item is counted nowhere. -/
def bucketOf (threshes : List ℤ) (nClass : ℕ) (pop : ℤ) : Option ℕ :=
  (List.range nClass).find? (fun n =>
    decide (bucketMin threshes n < pop ∧ pop ≤ bucketMax threshes nClass n))

/-- `_, topk_idx = torch.topk(scores, k, dim=-1)` on one score row
(trainer.py:591): the indices of the `k` largest entries, in descending
score order (`torch.topk` returns sorted values by default). -/
def topkIdx (row : List SVal) (k : ℕ) : List ℕ :=
  ((List.range row.length).insertionSort
    (fun i j => SVal.le (row.getD j .ninf) (row.getD i .ninf) = true)).take k

/-- The lines written for one batch by `Trainer.write_rec_list`
(trainer.py:592-599): for each row `u` of `topk_idx`, for each position
`p` and index `i`, one line `(user_mp[u], item_mp[i - 1], p + 1)`. -/
def recListLines (user_mp : ℕ → ℤ) (item_mp : ℤ → ℤ) (k : ℕ)
    (scores : List (List SVal)) : List (ℤ × ℤ × ℕ) :=
  (List.range scores.length).flatMap (fun u =>
    ((topkIdx (scores.getD u []) k).enum).map (fun pi =>
      (user_mp u, item_mp ((pi.2 : ℤ) - 1), pi.1 + 1)))

/-- `Trainer._full_sort_batch_eval_pop` (trainer.py:441-456): model scores
for the batch, then the masking step (sentinel column and history index);
no swap statements in this variant. -/
def full_sort_batch_eval_pop (scores : List (List SVal))
    (hist : Option (List (ℕ × ℕ))) : List (List SVal) :=
  maskScores scores hist

/-- `Trainer.write_rec_list` (trainer.py:586-599): iterate over the eval
batches; for each batch compute masked scores and its top-`k` lines
(`k = max(self.topk)`), and write them to `open(file_path, 'w')` — the
`'w'` mode re-opens and truncates the file inside the batch loop, so each
batch replaces the whole file content.  The result is the file content
after the loop. -/
def write_rec_list (user_mp : ℕ → ℤ) (item_mp : ℤ → ℤ) (k : ℕ)
    (batches : List (List (List SVal) × Option (List (ℕ × ℕ)))) :
    List (ℤ × ℤ × ℕ) :=
  batches.foldl
    (fun _file b => recListLines user_mp item_mp k (full_sort_batch_eval_pop b.1 b.2)) []

lemma length_setEntry (sc : List (List SVal)) (r c : ℕ) (v : SVal) :
    (setEntry sc r c v).length = sc.length := by
  simp [setEntry]

lemma getD_set {α : Type} (l : List α) (i j : ℕ) (a d : α) :
    (l.set i a).getD j d = if i = j ∧ i < l.length then a else l.getD j d := by
  rw [List.getD_eq_getElem?_getD, List.getElem?_set]
  by_cases h : i = j
  · subst h
    by_cases hl : i < l.length
    · simp [hl]
    · simp [hl, List.getD_eq_getElem?_getD, List.getElem?_eq_none (Nat.le_of_not_lt hl)]
  · simp [h, List.getD_eq_getElem?_getD]

lemma rowlen_setEntry (sc : List (List SVal)) (r c r' : ℕ) (v : SVal) :
    ((setEntry sc r c v).getD r' []).length = (sc.getD r' []).length := by
  unfold setEntry
  rw [getD_set]
  split
  · next h => rw [← h.1]; simp
  · rfl

lemma getEntry_setEntry_same (sc : List (List SVal)) (r c : ℕ) (v : SVal)
    (hr : r < sc.length) (hc : c < (sc.getD r []).length) :
    getEntry (setEntry sc r c v) r c = v := by
  unfold getEntry setEntry
  rw [getD_set, if_pos ⟨rfl, hr⟩, getD_set, if_pos ⟨rfl, hc⟩]

lemma getEntry_setEntry_other (sc : List (List SVal)) (r c r' c' : ℕ) (v : SVal)
    (h : r ≠ r' ∨ c ≠ c') :
    getEntry (setEntry sc r c v) r' c' = getEntry sc r' c' := by
  unfold getEntry setEntry
  rw [getD_set]
  split
  · next hcond =>
    have hc : c ≠ c' := h.resolve_left (fun hr => hr hcond.1)
    rw [getD_set, if_neg (fun hx => hc hx.1), hcond.1]
  · rfl

lemma length_writeAll (ws : List ((ℕ × ℕ) × SVal)) (sc : List (List SVal)) :
    (writeAll sc ws).length = sc.length := by
  induction ws generalizing sc with
  | nil => rfl
  | cons w ws ih => rw [writeAll, List.foldl_cons, ← writeAll, ih, length_setEntry]

lemma rowlen_writeAll (ws : List ((ℕ × ℕ) × SVal)) (sc : List (List SVal)) (r : ℕ) :
    ((writeAll sc ws).getD r []).length = (sc.getD r []).length := by
  induction ws generalizing sc with
  | nil => rfl
  | cons w ws ih => rw [writeAll, List.foldl_cons, ← writeAll, ih, rowlen_setEntry]

lemma getEntry_writeAll_not_mem (ws : List ((ℕ × ℕ) × SVal)) (sc : List (List SVal))
    (r c : ℕ) (h : ∀ w ∈ ws, w.1 ≠ (r, c)) :
    getEntry (writeAll sc ws) r c = getEntry sc r c := by
  induction ws generalizing sc with
  | nil => rfl
  | cons w ws ih =>
    rw [writeAll, List.foldl_cons, ← writeAll, ih _ (fun w' hw' => h w' (List.mem_cons_of_mem _ hw'))]
    apply getEntry_setEntry_other
    have hw := h w (List.mem_cons_self w ws)
    by_cases hr : w.1.1 = r
    · right
      intro hc
      exact hw (by rw [← hr, ← hc])
    · left
      exact hr

lemma getEntry_writeAll_const (ws : List ((ℕ × ℕ) × SVal)) (sc : List (List SVal))
    (r c : ℕ) (v : SVal) (hv : ∀ w ∈ ws, w.2 = v)
    (hr : r < sc.length) (hc : c < (sc.getD r []).length)
    (h : getEntry sc r c = v ∨ (r, c) ∈ ws.map (·.1)) :
    getEntry (writeAll sc ws) r c = v := by
  induction ws generalizing sc with
  | nil =>
    rcases h with h | h
    · exact h
    · simp at h
  | cons w ws ih =>
    rw [writeAll, List.foldl_cons, ← writeAll]
    apply ih
    · exact fun w' hw' => hv w' (List.mem_cons_of_mem _ hw')
    · rw [length_setEntry]; exact hr
    · rw [rowlen_setEntry]; exact hc
    · by_cases hw : w.1 = (r, c)
      · left
        have : w.2 = v := hv w (List.mem_cons_self w ws)
        rw [← this, hw]
        exact getEntry_setEntry_same sc r c w.2 hr hc
      · rcases h with h | h
        · left
          rw [← h]
          apply getEntry_setEntry_other
          by_cases hr' : w.1.1 = r
          · right; intro hc'; exact hw (by rw [← hr', ← hc'])
          · left; exact hr'
        · rcases List.mem_map.mp h with ⟨w', hw', he⟩
          rcases List.mem_cons.mp hw' with h1 | h1
          · exact absurd (h1 ▸ he) hw
          · right
            exact List.mem_map.mpr ⟨w', h1, he⟩

lemma writeAll_append (sc : List (List SVal)) (ws1 ws2 : List ((ℕ × ℕ) × SVal)) :
    writeAll sc (ws1 ++ ws2) = writeAll (writeAll sc ws1) ws2 := by
  unfold writeAll
  exact List.foldl_append _ _ _ _

lemma getEntry_writeAll_last (sc : List (List SVal)) (ws1 ws2 : List ((ℕ × ℕ) × SVal))
    (r c : ℕ) (v : SVal) (h2 : ∀ w ∈ ws2, w.1 ≠ (r, c))
    (hr : r < sc.length) (hc : c < (sc.getD r []).length) :
    getEntry (writeAll sc (ws1 ++ ((r, c), v) :: ws2)) r c = v := by
  rw [writeAll_append]
  rw [show writeAll (writeAll sc ws1) (((r, c), v) :: ws2) =
        writeAll (setEntry (writeAll sc ws1) r c v) ws2 from rfl]
  rw [getEntry_writeAll_not_mem ws2 _ r c h2]
  apply getEntry_setEntry_same
  · rw [length_writeAll]; exact hr
  · rw [rowlen_writeAll]; exact hc

lemma getEntry_maskSentinel (sc : List (List SVal)) (r c : ℕ) (hr : r < sc.length) :
    getEntry (maskSentinel sc) r c = if c = 0 then SVal.ninf else getEntry sc r c := by
  unfold getEntry maskSentinel
  have hrm : r < (sc.map (fun row => row.set 0 SVal.ninf)).length := by simpa using hr
  rw [List.getD_eq_getElem (sc.map (fun row => row.set 0 SVal.ninf)) [] hrm,
    List.getElem_map, getD_set, List.getD_eq_getElem sc [] hr]
  by_cases hc : c = 0
  · subst hc
    by_cases hl : 0 < sc[r].length
    · rw [if_pos ⟨rfl, hl⟩, if_pos rfl]
    · rw [if_neg (fun hx => hl hx.2), if_pos rfl]
      rw [List.getD_eq_getElem?_getD, List.getElem?_eq_none (Nat.le_of_not_lt hl)]
      rfl
  · rw [if_neg (fun hx => hc hx.1.symm), if_neg hc]

lemma length_maskSentinel (sc : List (List SVal)) :
    (maskSentinel sc).length = sc.length := by
  simp [maskSentinel]

lemma rowlen_maskSentinel (sc : List (List SVal)) (r : ℕ) :
    ((maskSentinel sc).getD r []).length = (sc.getD r []).length := by
  unfold maskSentinel
  by_cases hr : r < sc.length
  · have hrm : r < (sc.map (fun row => row.set 0 SVal.ninf)).length := by simpa using hr
    rw [List.getD_eq_getElem _ [] hrm, List.getElem_map,
      List.getD_eq_getElem sc [] hr]
    simp
  · rw [List.getD_eq_getElem?_getD, List.getD_eq_getElem?_getD,
      List.getElem?_eq_none (l := sc) (Nat.le_of_not_lt hr),
      List.getElem?_eq_none (by simpa using Nat.le_of_not_lt hr)]

/-- C10: for every learner name not among adam, sgd, adagrad, rmsprop,
sparse_adam (case-insensitive), `_build_optimizer` returns an Adam optimizer
with the configured learning rate and no weight decay — the configured
`weight_decay` is dropped even when nonzero — and no error is raised, only a
warning is logged. -/
theorem build_optimizer_unknown_fallback (learner : String) (lr wd : ℚ)
    (h : strLower learner ∉ ["adam", "sgd", "adagrad", "rmsprop", "sparse_adam"]) :
    build_optimizer learner lr wd = (Optimizer.adam lr 0, true) := by
  simp only [List.mem_cons, List.not_mem_nil, or_false, not_or] at h
  obtain ⟨h1, h2, h3, h4, h5⟩ := h
  simp [build_optimizer, h1, h2, h3, h4, h5]

theorem build_optimizer_unknown_fallback_witness :
    build_optimizer "AdamW" 5 7 = (Optimizer.adam 5 0, true) :=
  build_optimizer_unknown_fallback "AdamW" 5 7 (by decide)

/-- C4: `_save_checkpoint(epoch)` followed by `resume_checkpoint` on the
written checkpoint restores the saved `cur_step`, `best_valid_score`, and
bit-identical model state and optimizer state on any trainer, and restores
the saved epoch as `start_epoch = epoch + 1` (training resumes from the
epoch after the saved one, trainer.py:218). -/
theorem checkpoint_roundtrip {M O : Type} (t t' : TrainerCkptState M O) (epoch : ℤ) :
    (resume_checkpoint t' (save_checkpoint t epoch)).1.startEpoch = epoch + 1 ∧
    (resume_checkpoint t' (save_checkpoint t epoch)).1.curStep = t.curStep ∧
    (resume_checkpoint t' (save_checkpoint t epoch)).1.bestValidScore = t.bestValidScore ∧
    (resume_checkpoint t' (save_checkpoint t epoch)).1.modelState = t.modelState ∧
    (resume_checkpoint t' (save_checkpoint t epoch)).1.optimizerState = t.optimizerState :=
  ⟨rfl, rfl, rfl, rfl, rfl⟩

/-- C8: constructing `TraditionalTrainer` always raises `TypeError`, for
every configured epoch budget: `super().__init__(config, model)`
(trainer.py:883) supplies 2 arguments to `Trainer.__init__`, which requires
3 (trainer.py:71), so the interpreter rejects the call before
`self.epochs = 1` (trainer.py:884) is set and `fit` can never run on this
variant — against the class docstring "set the epoch to 1 whatever the
config".  Had the super call succeeded, the body's state would have
`epochs = 1` and `fit` would indeed train exactly one epoch (epoch 0). -/
theorem traditional_trainer_construct_type_error
    (cfgEpochs cfgEvalStep stoppingStep : ℕ)
    (bigger saved hasValid : Bool) (score : ℕ → ℚ) :
    traditionalTrainerConstruct cfgEpochs cfgEvalStep =
      .error "TypeError: __init__() missing 1 required positional argument: item_popularity" ∧
    (fitTrace (traditionalTrainerInit cfgEpochs cfgEvalStep) stoppingStep bigger
        saved hasValid score).map (·.epoch) = [0] := by
  constructor
  · rfl
  · simp only [fitTrace, traditionalTrainerInit, trainerInit]
    norm_num
    simp only [fitAux]
    split_ifs <;> rfl

lemma fitAux_no_valid (es ss : ℕ) (bigger saved : Bool) (score : ℕ → ℚ) :
    ∀ (fuel epoch : ℕ) (best : ℚ) (cur : ℕ),
      fitAux es ss bigger saved false score fuel epoch best cur =
        (List.range' epoch fuel).map (fun e =>
          { epoch := e, evaluated := false, checkpointed := saved,
            best := best, curStep := cur, stopped := false }) := by
  intro fuel
  induction fuel with
  | zero => intro epoch best cur; rfl
  | succ n ih =>
    intro epoch best cur
    simp only [fitAux, or_true, if_true]
    rw [ih, List.range'_succ]
    rfl

/-- C7: when `fit` is called with no validation data, every epoch from
`start_epoch` up to `epochs` is trained, each trained epoch checkpoints
exactly when saving is enabled, the validation branch never runs, and early
stopping never triggers: the loop runs the full configured budget. -/
theorem fit_no_valid_full_budget (init : TrainerInit) (stoppingStep : ℕ)
    (bigger saved : Bool) (score : ℕ → ℚ) :
    (fitTrace init stoppingStep bigger saved false score).map (·.epoch) =
        List.range' init.startEpoch (init.epochs - init.startEpoch) ∧
    ∀ r ∈ fitTrace init stoppingStep bigger saved false score,
        r.checkpointed = saved ∧ r.stopped = false ∧ r.evaluated = false := by
  constructor
  · rw [fitTrace, fitAux_no_valid, List.map_map]
    exact List.map_id'' (fun x => rfl) _
  · rw [fitTrace, fitAux_no_valid]
    intro r hr
    rcases List.mem_map.mp hr with ⟨e, _, rfl⟩
    exact ⟨rfl, rfl, rfl⟩

lemma trainEpochLoop_nan {α σ : Type} (lossf : α → List LossVal) (step : σ → α → σ)
    (b : α) (bs2 : List α) (hnan : combineLosses (lossf b) = .nan) :
    ∀ (bs1 : List α) (p : σ) (tot : Option (List LossVal)),
      (∀ b' ∈ bs1, combineLosses (lossf b') ≠ .nan) →
      trainEpochLoop lossf step (bs1 ++ b :: bs2) p tot =
        .error ("Training loss is nan", bs1.foldl step p) := by
  intro bs1
  induction bs1 with
  | nil =>
    intro p tot _
    simp only [List.nil_append, trainEpochLoop, List.foldl_nil]
    rw [hnan]
    rfl
  | cons a bs1 ih =>
    intro p tot hok
    have ha : combineLosses (lossf a) ≠ .nan := hok a (List.mem_cons_self a bs1)
    obtain ⟨q, hq⟩ : ∃ q, combineLosses (lossf a) = .val q := by
      cases h : combineLosses (lossf a) with
      | nan => exact absurd h ha
      | val q => exact ⟨q, rfl⟩
    simp only [List.cons_append, trainEpochLoop, List.foldl_cons]
    rw [hq]
    exact ih (step p a) _ (fun b' hb' => hok b' (List.mem_cons_of_mem a hb'))

/-- C3: in the `_train_epoch` batch loop, when every batch before `b` has a
non-NaN combined loss and batch `b`'s combined loss is NaN, the loop raises
`ValueError('Training loss is nan')` at `b` immediately, and the
parameter/optimizer state at the moment the exception propagates is the
fold of the optimizer steps over the earlier batches only: no
backpropagation or optimizer step is applied for the NaN batch. -/
theorem train_epoch_nan_abort {α σ : Type} (lossf : α → List LossVal)
    (step : σ → α → σ) (bs1 : List α) (b : α) (bs2 : List α) (p : σ)
    (hok : ∀ b' ∈ bs1, combineLosses (lossf b') ≠ .nan)
    (hnan : combineLosses (lossf b) = .nan) :
    train_epoch lossf step (bs1 ++ b :: bs2) p =
      .error ("Training loss is nan", bs1.foldl step p) :=
  trainEpochLoop_nan lossf step b bs2 hnan bs1 p none hok

theorem train_epoch_nan_abort_witness :
    train_epoch (fun n : ℕ => if n = 9 then [LossVal.nan] else [LossVal.val (n : ℚ)])
        (fun s b => s + b) ([1, 2] ++ 9 :: [3]) 0 =
      .error ("Training loss is nan", 3) :=
  train_epoch_nan_abort _ _ [1, 2] 9 [3] 0 (by decide) (by decide)

/-- C5: after the masking step of `_full_sort_batch_eval` (and before the
swap corrections), the sentinel column 0 and every position listed in the
history index hold negative infinity, and every other in-range entry is
unchanged from the model's prediction. -/
theorem full_sort_masking (sc : List (List SVal)) (hist : List (ℕ × ℕ)) (r c : ℕ)
    (hr : r < sc.length) (hc : c < (sc.getD r []).length) :
    getEntry (maskScores sc (some hist)) r c =
      if c = 0 ∨ (r, c) ∈ hist then SVal.ninf else getEntry sc r c := by
  unfold maskScores maskHistory
  by_cases hmem : (r, c) ∈ hist
  · rw [if_pos (Or.inr hmem)]
    apply getEntry_writeAll_const
    · intro w hw
      rcases List.mem_map.mp hw with ⟨p, _, rfl⟩
      rfl
    · rw [length_maskSentinel]; exact hr
    · rw [rowlen_maskSentinel]; exact hc
    · right
      rw [List.map_map]
      simpa using hmem
  · rw [getEntry_writeAll_not_mem]
    · rw [getEntry_maskSentinel sc r c hr]
      by_cases hc0 : c = 0
      · rw [if_pos hc0, if_pos (Or.inl hc0)]
      · rw [if_neg hc0, if_neg ?_]
        rintro (h | h)
        · exact hc0 h
        · exact hmem h
    · intro w hw
      rcases List.mem_map.mp hw with ⟨p, hp, rfl⟩
      intro he
      exact hmem (he ▸ hp)

theorem full_sort_masking_witness :
    getEntry (maskScores [[SVal.val 1, SVal.val 2, SVal.val 3, SVal.val 4, SVal.val 5]]
        (some [(0, 1), (0, 3)])) 0 3 = SVal.ninf ∧
    getEntry (maskScores [[SVal.val 1, SVal.val 2, SVal.val 3, SVal.val 4, SVal.val 5]]
        (some [(0, 1), (0, 3)])) 0 2 = SVal.val 3 :=
  ⟨(full_sort_masking _ _ 0 3 (by decide) (by decide)).trans (by decide),
   (full_sort_masking _ _ 0 2 (by decide) (by decide)).trans (by decide)⟩

/-- C1 (counterexample): for score row [10, 20, 30, 40], first swap set
{(row 0, before-column 1, after-column 3)} and second swap set
{(row 0, before-column 3, after-column 2)}, the second set's after-column 2
ends with 20 — the value column 3 holds after the first statement — not with
the pre-swap value 40 of its before-column, because `tmp_scores = scores`
(trainer.py:434) aliases the tensor being written; moreover running the two
swap statements in the opposite order yields a different matrix, so the
result is not independent of the evaluation order. -/
theorem full_sort_swaps_counterexample :
    getEntry [[SVal.val 10, SVal.val 20, SVal.val 30, SVal.val 40]] 0 3 = SVal.val 40 ∧
    getEntry (fullSortSwaps [[SVal.val 10, SVal.val 20, SVal.val 30, SVal.val 40]]
        [⟨0, 3, 1⟩] [⟨0, 2, 3⟩]) 0 2 = SVal.val 20 ∧
    SVal.val 20 ≠ SVal.val 40 ∧
    fullSortSwaps [[SVal.val 10, SVal.val 20, SVal.val 30, SVal.val 40]]
        [⟨0, 3, 1⟩] [⟨0, 2, 3⟩] ≠
      fullSortSwaps [[SVal.val 10, SVal.val 20, SVal.val 30, SVal.val 40]]
        [⟨0, 2, 3⟩] [⟨0, 3, 1⟩] :=
  ⟨by decide, by decide, by decide, by decide⟩

/-- C1 (amended): within a single swap statement with pairwise-distinct
write targets, every designated after-column receives the before-column's
value as read before that statement's writes, and every other entry is
unchanged; in particular, for scores [10, 20, 30, 40] and the single swap
instruction (row 0, before 1, after 3) the post-swap value at (0, 3) is 20.
Across the two statements this pre-swap property fails (the second statement
reads the already-modified tensor) and the result depends on the statement
order — see the counterexample. -/
theorem apply_swap_set_spec (sc : List (List SVal)) (swaps : List Swap)
    (hnodup : (swaps.map (fun w => (w.row, w.colAfter))).Nodup) :
    (∀ w ∈ swaps, w.row < sc.length → w.colAfter < (sc.getD w.row []).length →
        getEntry (applySwapSet sc swaps) w.row w.colAfter =
          getEntry sc w.row w.colBefore) ∧
    (∀ r c, (∀ w ∈ swaps, (w.row, w.colAfter) ≠ (r, c)) →
        getEntry (applySwapSet sc swaps) r c = getEntry sc r c) ∧
    getEntry (applySwapSet [[SVal.val 10, SVal.val 20, SVal.val 30, SVal.val 40]]
        [⟨0, 3, 1⟩]) 0 3 = SVal.val 20 := by
  refine ⟨?_, ?_, by decide⟩
  · intro w hw hr hc
    obtain ⟨l1, l2, rfl⟩ := List.append_of_mem hw
    rw [List.map_append, List.map_cons] at hnodup
    have hnot : (w.row, w.colAfter) ∉ l2.map (fun w => (w.row, w.colAfter)) :=
      (List.nodup_cons.mp (hnodup.of_append_right)).1
    unfold applySwapSet
    rw [List.map_append, List.map_cons]
    apply getEntry_writeAll_last
    · intro ww hww
      rcases List.mem_map.mp hww with ⟨u, hu, rfl⟩
      intro he
      exact hnot (he ▸ List.mem_map.mpr ⟨u, hu, rfl⟩)
    · exact hr
    · exact hc
  · intro r c h
    unfold applySwapSet
    apply getEntry_writeAll_not_mem
    intro ww hww
    rcases List.mem_map.mp hww with ⟨u, hu, rfl⟩
    exact h u hu

theorem apply_swap_set_spec_witness :
    getEntry (applySwapSet [[SVal.val 10, SVal.val 20, SVal.val 30, SVal.val 40]]
        [⟨0, 3, 1⟩]) 0 3 = SVal.val 20 ∧
    getEntry (applySwapSet [[SVal.val 10, SVal.val 20, SVal.val 30, SVal.val 40]]
        [⟨0, 3, 1⟩]) 0 2 = SVal.val 30 :=
  ⟨((apply_swap_set_spec [[SVal.val 10, SVal.val 20, SVal.val 30, SVal.val 40]]
      [⟨0, 3, 1⟩] (by decide)).1 ⟨0, 3, 1⟩ (by decide) (by decide)
      (by decide)).trans (by decide),
   ((apply_swap_set_spec [[SVal.val 10, SVal.val 20, SVal.val 30, SVal.val 40]]
      [⟨0, 3, 1⟩] (by decide)).2.1 0 2 (by decide)).trans (by decide)⟩

lemma early_stopping_true_eq (v b : ℚ) (c m : ℕ) :
    early_stopping v b c m true =
      if b < v then (v, 0, decide (m ≤ 0), true)
      else (b, c + 1, decide (m ≤ c + 1), false) := by
  unfold early_stopping
  by_cases h : b < v <;> simp [h]

lemma early_stopping_false_eq (v b : ℚ) (c m : ℕ) :
    early_stopping v b c m false =
      if v < b then (v, 0, decide (m ≤ 0), true)
      else (b, c + 1, decide (m ≤ c + 1), false) := by
  unfold early_stopping
  by_cases h : v < b <;> simp [h]

lemma early_stopping_stop_eq (v b : ℚ) (c m : ℕ) (bigger : Bool) :
    (early_stopping v b c m bigger).2.2.1 =
      decide (m ≤ (early_stopping v b c m bigger).2.1) := rfl

lemma fitAux_best_mono (es ss : ℕ) (bigger saved hasValid : Bool) (score : ℕ → ℚ)
    (R : ℚ → ℚ → Prop) (hrefl : ∀ a, R a a)
    (htrans : ∀ a b c, R a b → R b c → R a c)
    (hstep : ∀ (v b : ℚ) (c : ℕ), R b (early_stopping v b c ss bigger).1) :
    ∀ (fuel epoch : ℕ) (best : ℚ) (cur : ℕ),
      List.Chain' (fun a b => R a.best b.best)
        (fitAux es ss bigger saved hasValid score fuel epoch best cur) ∧
      ∀ r ∈ fitAux es ss bigger saved hasValid score fuel epoch best cur,
        R best r.best := by
  intro fuel
  induction fuel with
  | zero => intro epoch best cur; exact ⟨List.chain'_nil, by intro r hr; simp [fitAux] at hr⟩
  | succ n ih =>
    intro epoch best cur
    simp only [fitAux]
    split
    · refine ⟨List.chain'_cons'.mpr ⟨?_, (ih (epoch + 1) best cur).1⟩, ?_⟩
      · intro y hy
        exact (ih (epoch + 1) best cur).2 y (List.mem_of_mem_head? hy)
      · intro r hr
        rcases List.mem_cons.mp hr with h | h
        · subst h; exact hrefl best
        · exact (ih (epoch + 1) best cur).2 r h
    · split
      · next hmod =>
        split
        · exact ⟨List.chain'_singleton _, by
            intro r hr
            rcases List.mem_cons.mp hr with h | h
            · subst h; exact hstep (score epoch) best cur
            · simp at h⟩
        · refine ⟨List.chain'_cons'.mpr ⟨?_, (ih (epoch + 1) _ _).1⟩, ?_⟩
          · intro y hy
            exact (ih (epoch + 1) _ _).2 y (List.mem_of_mem_head? hy)
          · intro r hr
            rcases List.mem_cons.mp hr with h | h
            · subst h; exact hstep (score epoch) best cur
            · exact htrans _ _ _ (hstep (score epoch) best cur)
                ((ih (epoch + 1) _ _).2 r h)
      · refine ⟨List.chain'_cons'.mpr ⟨?_, (ih (epoch + 1) best cur).1⟩, ?_⟩
        · intro y hy
          exact (ih (epoch + 1) best cur).2 y (List.mem_of_mem_head? hy)
        · intro r hr
          rcases List.mem_cons.mp hr with h | h
          · subst h; exact hrefl best
          · exact (ih (epoch + 1) best cur).2 r h

lemma fitAux_stopped_iff (es ss : ℕ) (bigger saved hasValid : Bool) (score : ℕ → ℚ) :
    ∀ (fuel epoch : ℕ) (best : ℚ) (cur : ℕ),
      ∀ r ∈ fitAux es ss bigger saved hasValid score fuel epoch best cur,
        r.stopped = (r.evaluated && decide (ss ≤ r.curStep)) := by
  intro fuel
  induction fuel with
  | zero => intro epoch best cur r hr; simp [fitAux] at hr
  | succ n ih =>
    intro epoch best cur r hr
    simp only [fitAux] at hr
    split at hr
    · rcases List.mem_cons.mp hr with h | h
      · subst h; rfl
      · exact ih (epoch + 1) best cur r h
    · split at hr
      · rcases List.mem_cons.mp hr with h | h
        · subst h
          simp only [Bool.true_and]
          exact early_stopping_stop_eq (score epoch) best cur ss bigger
        · split at h
          · simp at h
          · exact ih (epoch + 1) _ _ r h
      · rcases List.mem_cons.mp hr with h | h
        · subst h; rfl
        · exact ih (epoch + 1) best cur r h

lemma fitAux_stop_last (es ss : ℕ) (bigger saved hasValid : Bool) (score : ℕ → ℚ) :
    ∀ (fuel epoch : ℕ) (best : ℚ) (cur : ℕ)
      (l₁ : List EpochResult) (r : EpochResult) (l₂ : List EpochResult),
      fitAux es ss bigger saved hasValid score fuel epoch best cur = l₁ ++ r :: l₂ →
      r.stopped = true → l₂ = [] := by
  intro fuel
  induction fuel with
  | zero =>
    intro epoch best cur l₁ r l₂ h _
    rw [fitAux] at h
    exact absurd h.symm (List.append_ne_nil_of_right_ne_nil l₁ (List.cons_ne_nil r l₂))
  | succ n ih =>
    intro epoch best cur l₁ r l₂ h hstop
    simp only [fitAux] at h
    split at h
    · cases l₁ with
      | nil =>
        rcases (List.cons.injEq _ _ _ _).mp h with ⟨he, _⟩
        rw [← he] at hstop
        simp at hstop
      | cons x l₁ =>
        rcases (List.cons.injEq _ _ _ _).mp h with ⟨_, ht⟩
        exact ih (epoch + 1) best cur l₁ r l₂ ht hstop
    · split at h
      · cases l₁ with
        | nil =>
          rcases (List.cons.injEq _ _ _ _).mp h with ⟨he, ht⟩
          rw [← he] at hstop
          simp only at hstop
          rw [if_pos hstop] at ht
          exact ht.symm
        | cons x l₁ =>
          rcases (List.cons.injEq _ _ _ _).mp h with ⟨_, ht⟩
          split at ht
          · exact absurd ht.symm
              (List.append_ne_nil_of_right_ne_nil l₁ (List.cons_ne_nil r l₂))
          · exact ih (epoch + 1) _ _ l₁ r l₂ ht hstop
      · cases l₁ with
        | nil =>
          rcases (List.cons.injEq _ _ _ _).mp h with ⟨he, _⟩
          rw [← he] at hstop
          simp at hstop
        | cons x l₁ =>
          rcases (List.cons.injEq _ _ _ _).mp h with ⟨_, ht⟩
          exact ih (epoch + 1) best cur l₁ r l₂ ht hstop

/-- C2: across every run of `Trainer.fit` with validation data, the
early-stopping check resets `cur_step` to 0 exactly when the validation
score improves and increments it by 1 otherwise (for either metric
polarity); `best_valid_score` never regresses along the trace — it is
non-decreasing when the valid metric is bigger-is-better and non-increasing
otherwise; an iteration signals stop exactly when it evaluated and the
updated `cur_step` reached `stopping_step`; and the loop breaks at a
stopping iteration: nothing is trained after it. -/
theorem fit_early_stopping_invariants (evalStep stoppingStep : ℕ)
    (saved hasValid : Bool) (score : ℕ → ℚ) (fuel epoch : ℕ)
    (best₀ : ℚ) (cur₀ : ℕ) :
    (∀ (v b : ℚ) (c : ℕ),
        early_stopping v b c stoppingStep true =
          if b < v then (v, 0, decide (stoppingStep ≤ 0), true)
          else (b, c + 1, decide (stoppingStep ≤ c + 1), false)) ∧
    (∀ (v b : ℚ) (c : ℕ),
        early_stopping v b c stoppingStep false =
          if v < b then (v, 0, decide (stoppingStep ≤ 0), true)
          else (b, c + 1, decide (stoppingStep ≤ c + 1), false)) ∧
    List.Chain' (fun a b => a.best ≤ b.best)
      (fitAux evalStep stoppingStep true saved hasValid score fuel epoch best₀ cur₀) ∧
    (∀ r ∈ fitAux evalStep stoppingStep true saved hasValid score fuel epoch best₀ cur₀,
        best₀ ≤ r.best) ∧
    List.Chain' (fun a b => b.best ≤ a.best)
      (fitAux evalStep stoppingStep false saved hasValid score fuel epoch best₀ cur₀) ∧
    (∀ r ∈ fitAux evalStep stoppingStep false saved hasValid score fuel epoch best₀ cur₀,
        r.best ≤ best₀) ∧
    (∀ (bigger : Bool),
        ∀ r ∈ fitAux evalStep stoppingStep bigger saved hasValid score fuel epoch best₀ cur₀,
          r.stopped = (r.evaluated && decide (stoppingStep ≤ r.curStep))) ∧
    (∀ (bigger : Bool) (l₁ : List EpochResult) (r : EpochResult) (l₂ : List EpochResult),
        fitAux evalStep stoppingStep bigger saved hasValid score fuel epoch best₀ cur₀ =
          l₁ ++ r :: l₂ → r.stopped = true → l₂ = []) := by
  have hmonoT := fitAux_best_mono evalStep stoppingStep true saved hasValid score
    (· ≤ ·) (fun a => le_refl a) (fun a b c hab hbc => le_trans hab hbc)
    (fun v b c => by
      rw [early_stopping_true_eq]
      by_cases h : b < v
      · rw [if_pos h]; exact le_of_lt h
      · rw [if_neg h])
    fuel epoch best₀ cur₀
  have hmonoF := fitAux_best_mono evalStep stoppingStep false saved hasValid score
    (fun a b => b ≤ a) (fun a => le_refl a) (fun a b c hab hbc => le_trans hbc hab)
    (fun v b c => by
      rw [early_stopping_false_eq]
      by_cases h : v < b
      · rw [if_pos h]; exact le_of_lt h
      · rw [if_neg h])
    fuel epoch best₀ cur₀
  exact ⟨early_stopping_true_eq (m := stoppingStep),
    early_stopping_false_eq (m := stoppingStep),
    hmonoT.1, hmonoT.2, hmonoF.1, hmonoF.2,
    fun bigger => fitAux_stopped_iff evalStep stoppingStep bigger saved hasValid
      score fuel epoch best₀ cur₀,
    fun bigger l₁ r l₂ => fitAux_stop_last evalStep stoppingStep bigger saved
      hasValid score fuel epoch best₀ cur₀ l₁ r l₂⟩

lemma sorted_getD_mono (l : List ℤ) (hs : l.Sorted (· ≤ ·)) (i j : ℕ)
    (hij : i ≤ j) (hj : j < l.length) : l.getD i 0 ≤ l.getD j 0 := by
  have hi : i < l.length := lt_of_le_of_lt hij hj
  rw [List.getD_eq_getElem l 0 hi, List.getD_eq_getElem l 0 hj]
  exact hs.rel_get_of_le (a := ⟨i, hi⟩) (b := ⟨j, hj⟩) hij

lemma get_threshes_sorted (pops : List ℤ) (nClass : ℕ) :
    (get_threshes pops nClass).Sorted (· ≤ ·) := by
  unfold get_threshes
  rw [List.Sorted, List.pairwise_map]
  refine List.Pairwise.imp_of_mem ?_ (List.pairwise_lt_range' 1 (nClass - 1) 1 (by omega))
  intro a b ha hb hab
  by_cases hlen : pops.length = 0
  · have he : pops.insertionSort (· ≤ ·) = [] :=
      List.eq_nil_of_length_eq_zero (by rw [List.length_insertionSort]; exact hlen)
    rw [he]
    simp
  · have hb' : b < nClass := by
      have := (List.mem_range'_1.mp hb).2
      omega
    apply sorted_getD_mono _ (List.sorted_insertionSort _ _)
    · exact Nat.div_le_div_right (Nat.mul_le_mul_right _ (le_of_lt hab))
    · rw [List.length_insertionSort]
      apply Nat.div_lt_of_lt_mul
      have hpos : 0 < pops.length := Nat.pos_of_ne_zero hlen
      exact (Nat.mul_lt_mul_right hpos).mpr hb' 

lemma bucket_exists_unique (th : List ℤ) (nClass : ℕ) (hs : th.Sorted (· ≤ ·))
    (hlen : th.length = nClass - 1) (hn : 0 < nClass) (pop : ℤ)
    (hpop : 0 < pop) (hcap : pop ≤ 100000) :
    ∃! n, n < nClass ∧ bucketMin th n < pop ∧ pop ≤ bucketMax th nClass n := by
  have hPtop : pop ≤ bucketMax th nClass (nClass - 1) := by
    rw [bucketMax, if_neg (lt_irrefl _)]; exact hcap
  have hP : ∃ n, pop ≤ bucketMax th nClass n := ⟨nClass - 1, hPtop⟩
  have hPN : pop ≤ bucketMax th nClass (Nat.find hP) := Nat.find_spec hP
  have hNle : Nat.find hP ≤ nClass - 1 := Nat.find_min' hP hPtop
  have hNlt : Nat.find hP < nClass := lt_of_le_of_lt hNle (Nat.sub_lt hn Nat.one_pos)
  have hminN : bucketMin th (Nat.find hP) < pop := by
    cases hN0 : Nat.find hP with
    | zero => rw [bucketMin, if_neg (lt_irrefl _)]; exact hpop
    | succ k =>
      have hk : ¬ pop ≤ bucketMax th nClass k := Nat.find_min hP (by omega)
      have hklt : k < nClass - 1 := by omega
      rw [bucketMax, if_pos hklt] at hk
      rw [bucketMin, if_pos (Nat.succ_pos k)]
      simp only [Nat.add_sub_cancel]
      omega
  refine ⟨Nat.find hP, ⟨hNlt, hminN, hPN⟩, ?_⟩
  rintro m ⟨hmlt, hminm, hmaxm⟩
  by_contra hne
  rcases Nat.lt_or_ge m (Nat.find hP) with hlt | hge
  · exact absurd hmaxm (Nat.find_min hP hlt)
  · have hlt : Nat.find hP < m := lt_of_le_of_ne hge (Ne.symm hne)
    have hm1 : m ≤ nClass - 1 := by omega
    have hNlt1 : Nat.find hP < nClass - 1 := lt_of_lt_of_le hlt hm1
    rw [bucketMax, if_pos hNlt1] at hPN
    obtain ⟨k, rfl⟩ : ∃ k, m = k + 1 := ⟨m - 1, by omega⟩
    rw [bucketMin, if_pos (Nat.succ_pos k)] at hminm
    simp only [Nat.add_sub_cancel] at hminm
    have hNk : Nat.find hP ≤ k := by omega
    have hklen : k < th.length := by omega
    have hmono := sorted_getD_mono th hs (Nat.find hP) k hNk hklen
    omega

/-- C6 (counterexample): for `n_class = 3` and the 9-item popularity table
[0, 1, ..., 8], the thresholds are the sorted values at indices 3 and 6
(namely [3, 6]); yet a recommended item of popularity 0 matches no bucket —
bucket 0 requires popularity strictly greater than 0 — so the assignment
loop of `evaluate_pop` counts it in no bucket, contradicting assignment to
exactly one bucket. -/
theorem evaluate_pop_bucket_counterexample :
    get_threshes [0, 1, 2, 3, 4, 5, 6, 7, 8] 3 = [3, 6] ∧
    bucketOf (get_threshes [0, 1, 2, 3, 4, 5, 6, 7, 8] 3) 3 0 = none := by
  constructor <;> decide

/-- C6 (amended): bucket thresholds are the sorted popularity table's values
at the cut indices `(i * len) / n_class` — for `n_class = 3` and 9 items, at
indices 3 and 6 — and every recommended item whose popularity lies strictly
above 0 and at most 100000 (the hard-coded top bound of the last bucket) is
assigned to exactly one bucket; the matching bucket's range has an inclusive
upper bound and excludes the previous bucket's bound, so an item with
popularity exactly at a boundary value goes to the lower-indexed bucket.
Items of popularity 0 (or above the cap) are counted in no bucket. -/
theorem evaluate_pop_bucket_spec (pops : List ℤ) (nClass : ℕ) (pop : ℤ)
    (hn : 0 < nClass) (hpop : 0 < pop) (hcap : pop ≤ 100000) :
    (pops.length = 9 →
        get_threshes pops 3 =
          [(pops.insertionSort (· ≤ ·)).getD 3 0,
           (pops.insertionSort (· ≤ ·)).getD 6 0]) ∧
    (∃! n, n < nClass ∧ bucketMin (get_threshes pops nClass) n < pop ∧
        pop ≤ bucketMax (get_threshes pops nClass) nClass n) ∧
    (∀ k, bucketOf (get_threshes pops nClass) nClass pop = some k ↔
        (k < nClass ∧ bucketMin (get_threshes pops nClass) k < pop ∧
          pop ≤ bucketMax (get_threshes pops nClass) nClass k)) := by
  have hlen : (get_threshes pops nClass).length = nClass - 1 := by
    simp [get_threshes]
  have hEU := bucket_exists_unique _ nClass (get_threshes_sorted pops nClass)
    hlen hn pop hpop hcap
  refine ⟨?_, hEU, ?_⟩
  · intro h9
    rw [get_threshes]
    simp only [h9]
    rfl
  · intro k
    constructor
    · intro hfind
      unfold bucketOf at hfind
      have hp := List.find?_some hfind
      have hmem := List.mem_of_find?_eq_some hfind
      rw [List.mem_range] at hmem
      simp only [decide_eq_true_eq] at hp
      exact ⟨hmem, hp⟩
    · intro hk
      obtain ⟨N, hN, huniq⟩ := hEU
      have hkN : k = N := huniq k hk
      have hsome : (bucketOf (get_threshes pops nClass) nClass pop).isSome := by
        rw [bucketOf, List.find?_isSome]
        refine ⟨k, List.mem_range.mpr hk.1, ?_⟩
        simp only [decide_eq_true_eq]
        exact ⟨hk.2.1, hk.2.2⟩
      obtain ⟨m, hm⟩ := Option.isSome_iff_exists.mp hsome
      have hm' := hm
      unfold bucketOf at hm'
      have hpm := List.find?_some hm'
      have hmm := List.mem_of_find?_eq_some hm'
      rw [List.mem_range] at hmm
      simp only [decide_eq_true_eq] at hpm
      have hmN : m = N := huniq m ⟨hmm, hpm⟩
      rw [hm]
      exact congrArg some (hmN.trans hkN.symm)

theorem evaluate_pop_bucket_spec_witness :
    bucketOf (get_threshes [0, 1, 2, 3, 4, 5, 6, 7, 8] 3) 3 3 = some 0 :=
  ((evaluate_pop_bucket_spec [0, 1, 2, 3, 4, 5, 6, 7, 8] 3 3 (by decide)
      (by decide) (by decide)).2.2 0).mpr (by decide)

/-- C9 (code bug at a failing input): `write_rec_list` re-opens the output
file with mode `'w'` inside the batch loop (trainer.py:592), truncating it
on every batch; with two evaluation batches (users 100, 101 in the first,
user 100-of-batch-2 in the second) the final file holds only the second
batch's lines, and no line of the first batch's user 101 survives — not all
users' lines are present.  Each single batch's lines are well-formed:
1-indexed rank positions in descending score order up to top-k. -/
theorem write_rec_list_truncates :
    write_rec_list (fun u => 100 + (u : ℤ)) (fun i => 200 + i) 2
      [([[SVal.val 5, SVal.val 9, SVal.val 7],
         [SVal.val 5, SVal.val 7, SVal.val 9]], none),
       ([[SVal.val 5, SVal.val 6, SVal.val 8]], none)] =
      [(100, 201, 1), (100, 200, 2)] ∧
    recListLines (fun u => 100 + (u : ℤ)) (fun i => 200 + i) 2
      (full_sort_batch_eval_pop
        [[SVal.val 5, SVal.val 9, SVal.val 7],
         [SVal.val 5, SVal.val 7, SVal.val 9]] none) =
      [(100, 200, 1), (100, 201, 2), (101, 201, 1), (101, 200, 2)] ∧
    (∀ l ∈ write_rec_list (fun u => 100 + (u : ℤ)) (fun i => 200 + i) 2
        [([[SVal.val 5, SVal.val 9, SVal.val 7],
           [SVal.val 5, SVal.val 7, SVal.val 9]], none),
         ([[SVal.val 5, SVal.val 6, SVal.val 8]], none)],
      l.1 ≠ 101) := by
  refine ⟨by decide, by decide, by decide⟩
